import Mathlib

/-
Verification of the agent-scoped configuration / authentication layer and the
audited gate-read path of the fagents-mcp server.

The embedding follows the TypeScript sources:
  * src/config.ts  — agents.json lookups, context-scoped env resolution,
                     derived server/email/IMAP config accessors;
  * src/auth.ts    — the `authenticate` middleware;
  * src/server.ts  — the `gate_email` tool (audit-before-return, sanitizer).

JavaScript strings are modelled as Lean `String`/`List Char`, JS objects as
association lists in insertion order, `undefined` as `Option.none`, thrown
exceptions as `Except.error`.  External collaborators (the IMAP fetch and the
audit sink HTTP call) are oracle inputs, since their code lives outside this
layer.
-/

namespace FagentsMcp

/-- Entries of one agent's block in agents.json: arbitrary string keys
(including the mandatory "apiKey") mapped to string values, modelled as an
association list in file order (src/types.ts `AgentConfig`). -/
abbrev AgentEntries := List (String × String)

/-- The parsed agents.json file (src/types.ts `AgentsFile`): an `agents`
mapping from agentId to its entry block, and an optional `shared` block. -/
structure AgentsFile where
  agents : List (String × AgentEntries)
  shared : Option (List (String × String))
deriving DecidableEq

/-- The process environment, modelled as an association list; a key that is
absent from the list is an unset environment variable. -/
abbrev ProcEnv := List (String × String)

/-- Shared-block lookup used by `getAgentEnv` (src/config.ts lines 63-65):
`if (config.shared && key in config.shared) return config.shared[key]`. -/
def sharedEnv (file : AgentsFile) (key : String) : Option String :=
  match file.shared with
  | some s => s.lookup key
  | none => none

/-- src/config.ts `getAgentEnv` (lines 57-67): the agent's own entry for
`key` when present and `key !== "apiKey"`, else the shared-block entry,
else absent. -/
def getAgentEnv (file : AgentsFile) (agentId key : String) : Option String :=
  match file.agents.lookup agentId with
  | some agent =>
    if (agent.lookup key).isSome ∧ key ≠ "apiKey" then agent.lookup key
    else sharedEnv file key
  | none => sharedEnv file key

/-- Process-environment lookup as used by src/config.ts `getEnv` line 77:
`process.env[key] || undefined` — an empty string is collapsed to absent. -/
def envOrNone (penv : ProcEnv) (key : String) : Option String :=
  match penv.lookup key with
  | some v => if v = "" then none else some v
  | none => none

/-- src/config.ts `getEnv` (lines 71-78).  `ctx` is the agent identity bound
by the AsyncLocalStorage context (`getCurrentAgentId()`), threaded explicitly
here. -/
def getEnv (file : AgentsFile) (penv : ProcEnv) (ctx : Option String)
    (key : String) : Option String :=
  match ctx with
  | some agentId =>
    match getAgentEnv file agentId key with
    | some v => some v
    | none => envOrNone penv key
  | none => envOrNone penv key

/-- The error message of src/config.ts `getRequiredEnv` line 85. -/
def missingMsg (ctx : Option String) (key : String) : String :=
  "Missing required config: " ++ key ++
    (match ctx with
     | some agentId => " (agent: " ++ agentId ++ ")"
     | none => "")

/-- src/config.ts `getRequiredEnv` (lines 80-88).  The JS test is `!val`, so
an empty-string value also throws. -/
def getRequiredEnv (file : AgentsFile) (penv : ProcEnv) (ctx : Option String)
    (key : String) : Except String String :=
  match getEnv file penv ctx key with
  | some v => if v = "" then .error (missingMsg ctx key) else .ok v
  | none => .error (missingMsg ctx key)

/-- Model of JavaScript `parseInt(s, 10)`: skip leading whitespace, an
optional sign, then the longest prefix of decimal digits; `none` models NaN
(no digits).  Trailing garbage is ignored, as in JS. -/
def isJsSpace (c : Char) : Bool :=
  c = ' ' ∨ c = '\t' ∨ c = '\n' ∨ c = '\r'

/-- Accumulate the value of a decimal digit list. -/
def digitsToNat : List Char → Nat → Nat
  | [], acc => acc
  | c :: cs, acc => digitsToNat cs (acc * 10 + (c.toNat - 48))

/-- JavaScript `parseInt(s, 10)` (see `isJsSpace`); `none` models `NaN`. -/
def parseIntJS (s : String) : Option Int :=
  let cs := s.data.dropWhile isJsSpace
  let signed : Bool × List Char :=
    match cs with
    | '-' :: t => (true, t)
    | '+' :: t => (false, t)
    | _ => (false, cs)
  let ds := signed.2.takeWhile Char.isDigit
  if ds.isEmpty then none
  else
    let n : Int := Int.ofNat (digitsToNat ds 0)
    some (if signed.1 then -n else n)

/-- Result record of src/config.ts `getServerConfig` (lines 92-101). -/
structure ServerConfig where
  port : Int
  host : String
  apiKey : Option String
deriving DecidableEq

/-- src/config.ts `getServerConfig` (lines 92-101): MCP_PORT defaults to
"3000" and is validated as an integer in [1, 65535]; invalid values throw. -/
def getServerConfig (file : AgentsFile) (penv : ProcEnv) (ctx : Option String) :
    Except String ServerConfig :=
  let portStr := (getEnv file penv ctx "MCP_PORT").getD "3000"
  match parseIntJS portStr with
  | none => .error ("Invalid MCP_PORT: " ++ portStr)
  | some port =>
    if port < 1 ∨ 65535 < port then .error ("Invalid MCP_PORT: " ++ portStr)
    else
      .ok { port := port,
            host := (getEnv file penv ctx "MCP_HOST").getD "127.0.0.1",
            apiKey := getEnv file penv ctx "MCP_API_KEY" }

/-- Result record of src/config.ts `getEmailConfig` (lines 105-113); `port`
is `Option Int` because `parseInt` can yield NaN, which the code does not
check. -/
structure EmailConfig where
  host : String
  port : Option Int
  «from» : String
  user : Option String
  pass : Option String
deriving DecidableEq

/-- src/config.ts `getEmailConfig` (lines 105-113).  Field order follows the
object literal: `host` (required, throws first), `port` (unvalidated
`parseInt`), `from` (`getEnv("SMTP_FROM") ?? getRequiredEnv("SMTP_USER")`),
`user`, `pass`. -/
def getEmailConfig (file : AgentsFile) (penv : ProcEnv) (ctx : Option String) :
    Except String EmailConfig :=
  match getRequiredEnv file penv ctx "SMTP_HOST" with
  | .error e => .error e
  | .ok host =>
    let port := parseIntJS ((getEnv file penv ctx "SMTP_PORT").getD "587")
    match (match getEnv file penv ctx "SMTP_FROM" with
           | some f => Except.ok f
           | none => getRequiredEnv file penv ctx "SMTP_USER") with
    | .error e => .error e
    | .ok fromAddr =>
      .ok { host := host, port := port, «from» := fromAddr,
            user := getEnv file penv ctx "SMTP_USER",
            pass := getEnv file penv ctx "SMTP_PASS" }

/-- Result record of src/config.ts `getImapConfig` (lines 115-123). -/
structure ImapConfig where
  host : String
  port : Option Int
  user : String
  pass : String
  tls : Bool
deriving DecidableEq

/-- src/config.ts `getImapConfig` (lines 115-123): IMAP_HOST/USER/PASS are
required, IMAP_PORT is an unvalidated `parseInt` with default "993", and
`tls := (getEnv("IMAP_TLS") ?? "true") !== "false"`. -/
def getImapConfig (file : AgentsFile) (penv : ProcEnv) (ctx : Option String) :
    Except String ImapConfig :=
  match getRequiredEnv file penv ctx "IMAP_HOST" with
  | .error e => .error e
  | .ok host =>
    let port := parseIntJS ((getEnv file penv ctx "IMAP_PORT").getD "993")
    match getRequiredEnv file penv ctx "IMAP_USER" with
    | .error e => .error e
    | .ok user =>
      match getRequiredEnv file penv ctx "IMAP_PASS" with
      | .error e => .error e
      | .ok pass =>
        .ok { host := host, port := port, user := user, pass := pass,
              tls := ((getEnv file penv ctx "IMAP_TLS").getD "true") != "false" }

/-- src/config.ts `hasAgents` (lines 40-42). -/
def hasAgents (file : AgentsFile) : Bool :=
  !file.agents.isEmpty

/-- src/config.ts `resolveAgentByApiKey` (lines 44-55): first agent whose
stored apiKey equals the candidate.  `timingSafeEqual` on equal-length UTF-8
buffers is byte equality, hence string equality; the `AgentConfig` type
guarantees an `apiKey` entry exists. -/
def resolveAgentByApiKey (file : AgentsFile) (apiKey : String) : Option String :=
  (file.agents.find? (fun a => a.2.lookup "apiKey" == some apiKey)).map (fun a => a.1)

/-- The value of the `x-api-key` request header.  In Express it is
`string | string[] | undefined`; only the single-string form passes the
`typeof providedKey !== "string"` check of src/auth.ts line 19. -/
inductive HeaderVal where
  | str : String → HeaderVal
  | absent : HeaderVal
  | multi : HeaderVal
deriving DecidableEq

/-- Outcome of the authentication middleware: `allow id` calls `next()` with
`req.agentId = id` (the identity later bound via `runWithAgent` by the /mcp
handler, src/server.ts lines 275-288), `unauthorized` sends the 401
JSON-RPC error. -/
inductive AuthResult where
  | allow : Option String → AuthResult
  | unauthorized : AuthResult
deriving DecidableEq

/-- src/auth.ts `authenticate` (lines 7-55).  `getServerConfig()` is invoked
first and its exception propagates (`.error`).  The single-agent branch's
`config.apiKey!` is only reached with a key configured; the `none` arm there
is unreachable given the open-mode check above it. -/
def authenticate (file : AgentsFile) (penv : ProcEnv) (ctx : Option String)
    (header : HeaderVal) : Except String AuthResult :=
  match getServerConfig file penv ctx with
  | .error e => .error e
  | .ok config =>
    let multiAgent := hasAgents file
    if multiAgent = false ∧ config.apiKey = none then
      .ok (.allow none)
    else
      match header with
      | .str providedKey =>
        if multiAgent then
          match resolveAgentByApiKey file providedKey with
          | some agentId => .ok (.allow (some agentId))
          | none => .ok .unauthorized
        else
          match config.apiKey with
          | some k => if providedKey = k then .ok (.allow none) else .ok .unauthorized
          | none => .ok .unauthorized
      | _ => .ok .unauthorized

/-- Modelled from the spec, section 4.4 (Authenticator), for the refinement
claim C5: the decision procedure written out in the spec's own words, over
an abstract `multiAgent` flag, static key, and credential-store resolver. -/
def authSpec (multiAgent : Bool) (staticKey : Option String)
    (resolve : String → Option String) (header : HeaderVal) : AuthResult :=
  if multiAgent = false ∧ staticKey = none then .allow none
  else
    match header with
    | .str key =>
      if multiAgent then
        match resolve key with
        | some agentId => .allow (some agentId)
        | none => .unauthorized
      else
        match staticKey with
        | some s => if key = s then .allow none else .unauthorized
        | none => .unauthorized
    | _ => .unauthorized

/-- Modelled from the spec, section 3 (data model), for the refinement claim
C6: the agent's overrides mapping is its entry block with the structural
`apiKey` field removed. -/
def specOverride (file : AgentsFile) (agentId key : String) : Option String :=
  match file.agents.lookup agentId with
  | some entries => (entries.filter (fun e => !(e.1 == "apiKey"))).lookup key
  | none => none

/-- Modelled from the spec, section 3: the shared-defaults mapping. -/
def specShared (file : AgentsFile) (key : String) : Option String :=
  match file.shared with
  | some s => s.lookup key
  | none => none

/-- Modelled from the spec, section 4.3: process-wide environment with an
empty string treated as absent. -/
def specProcEnv (penv : ProcEnv) (key : String) : Option String :=
  match penv.lookup key with
  | some v => if v = "" then none else some v
  | none => none

/-- Modelled from the spec, sections 4.1-4.3, for the refinement claim C6:
the four-tier cascade — bound agent's override, else shared default, else
process environment (empty string absent), else absent; without a bound
identity only the process environment is consulted. -/
def specGetEnv (file : AgentsFile) (penv : ProcEnv) (ctx : Option String)
    (key : String) : Option String :=
  match ctx with
  | none => specProcEnv penv key
  | some agentId =>
    match specOverride file agentId key with
    | some v => some v
    | none =>
      match specShared file key with
      | some v => some v
      | none => specProcEnv penv key

/-- Case-insensitive prefix match: `ciMatch p l` holds when the pattern `p`
(stored lowercase) matches a prefix of `l`, comparing each input character
lowered.  This is how a JS regex of lowercase ASCII literals with the `i`
flag matches at one position. -/
def ciMatch : List Char → List Char → Bool
  | [], _ => true
  | _ :: _, [] => false
  | p :: ps, c :: cs => p == c.toLower && ciMatch ps cs

/-- Case-insensitive compatibility: like `ciMatch`, but a pattern that runs
off the end of the text is still considered compatible (it could match in
some extension of the text). -/
def ciCompat : List Char → List Char → Bool
  | [], _ => true
  | _ :: _, [] => true
  | p :: ps, c :: cs => p == c.toLower && ciCompat ps cs

/-- Whether the pattern `q` matches anywhere in the text (at some suffix). -/
def occursCI (q : List Char) : List Char → Bool
  | [] => false
  | c :: cs => ciMatch q (c :: cs) || occursCI q cs

/-- Number of positions of the text where the pattern `q` matches. -/
def countOcc (q : List Char) : List Char → Nat
  | [] => 0
  | c :: cs => (if ciMatch q (c :: cs) = true then 1 else 0) + countOcc q cs

/-- No nonempty suffix of the text is `ciCompat` with `q`: no occurrence of
`q` can start anywhere inside the text, even running past its end. -/
def noCompatIn (q : List Char) : List Char → Bool
  | [] => true
  | c :: cs => !ciCompat q (c :: cs) && noCompatIn q cs

/-- No nonempty suffix of the pattern is `ciCompat` with `b`: no tail of the
pattern can begin matching at the start of `b`. -/
def sufNoCompat (b : List Char) : List Char → Bool
  | [] => true
  | c :: cs => !ciCompat (c :: cs) b && sufNoCompat b cs

/-- A replacement pattern: its first character plus the rest, so patterns are
nonempty by construction.  The full pattern is `p.1 :: p.2`. -/
abbrev StripPat := Char × List Char

/-- First pattern of `pats` matching at the head of `c :: cs` (the JS regex
alternatives tried left to right; at most one of our alternatives can match
at a position). -/
def findPat (pats : List StripPat) (c : Char) (cs : List Char) :
    Option StripPat :=
  pats.find? (fun p => p.1 == c.toLower && ciMatch p.2 cs)

/-- Scanner for one `String.replace(regex, rep)` pass, in a structurally
recursive form: the first argument counts characters of a just-matched
pattern still to be skipped.  See `stripPass` for the entry point. -/
def stripGo (pats : List StripPat) (rep : List Char) : Nat → List Char → List Char
  | _, [] => []
  | Nat.succ k, _ :: cs => stripGo pats rep k cs
  | 0, c :: cs =>
    match findPat pats c cs with
    | some p => rep ++ stripGo pats rep p.2.length cs
    | none => c :: stripGo pats rep 0 cs

/-- One global, case-insensitive, leftmost non-overlapping
`String.replace(/pat/gi, rep)` pass over a character list. -/
def stripPass (pats : List StripPat) (rep : List Char) (l : List Char) : List Char :=
  stripGo pats rep 0 l

/-- The patterns of the regex `/<\/?untrusted>/gi` of src/server.ts line 243
(the optional `/` tried first, as the regex engine does). -/
def anglePats : List StripPat :=
  [('<', "/untrusted>".data), ('<', "untrusted>".data)]

/-- The pattern of the regex `/\[\/untrusted\]/gi` of src/server.ts line 244. -/
def bracketPats : List StripPat :=
  [('[', "/untrusted]".data)]

/-- The pattern of the regex `/\{\/untrusted\}/gi` of src/server.ts line 245
(the braces written via their character codes). -/
def bracePats : List StripPat :=
  [(Char.ofNat 123, ("/untrusted" ++ String.singleton (Char.ofNat 125)).data)]

/-- The fixed replacement placeholder of src/server.ts lines 243-245. -/
def tagStripped : List Char := "[TAG_STRIPPED]".data

/-- src/server.ts `stripUntrusted` (lines 242-245): the three replacement
passes in source order, on character lists. -/
def stripUntrustedL (l : List Char) : List Char :=
  stripPass bracePats tagStripped
    (stripPass bracketPats tagStripped
      (stripPass anglePats tagStripped l))

/-- src/server.ts `stripUntrusted` (lines 242-245) on strings. -/
def stripUntrusted (s : String) : String :=
  String.mk (stripUntrustedL s.data)

/-- The wrapping applied to a returned body (src/server.ts lines 247 and
250): strip, then wrap in one fresh pair of untrusted markers. -/
def wrapUntrusted (s : String) : String :=
  "<untrusted>\n" ++ stripUntrusted s ++ "\n</untrusted>"

/-- The opening untrusted marker, as a lowercase pattern. -/
def openPat : List Char := "<untrusted>".data

/-- The closing untrusted marker, as a lowercase pattern. -/
def closePat : List Char := "</untrusted>".data

/-- The closing bracket-variant marker, as a lowercase pattern. -/
def brPat : List Char := "[/untrusted]".data

/-- The closing brace-variant marker, as a lowercase pattern. -/
def bracePat : List Char :=
  (String.singleton (Char.ofNat 123) ++ "/untrusted" ++ String.singleton (Char.ofNat 125)).data

/-- The opening bracket-variant marker, which the code does not strip. -/
def brOpenPat : List Char := "[untrusted]".data

/-- Attachment metadata of a fetched message (src/types.ts `AttachmentInfo`). -/
structure AttachmentInfo where
  part : String
  filename : String
  contentType : String
  size : Option Nat
deriving DecidableEq

/-- A fully fetched message (src/types.ts `EmailFull`), as produced by the
IMAP collaborator's `getMessage`. -/
structure EmailFull where
  uid : Nat
  «from» : String
  «to» : String
  cc : Option String
  subject : String
  date : String
  flags : List String
  messageId : Option String
  text : Option String
  html : Option String
  attachments : List AttachmentInfo
deriving DecidableEq

/-- Outcome of the audit-sink HTTP POST (src/server.ts lines 212-226), an
oracle input: `ok` is a 2xx response, `httpFail` a non-2xx response, `threw`
a transport error caught by the inner try/catch. -/
inductive SinkOutcome where
  | ok : SinkOutcome
  | httpFail : SinkOutcome
  | threw : SinkOutcome
deriving DecidableEq

/-- Whether the sink call succeeded (`logResp.ok`). -/
def SinkOutcome.delivered : SinkOutcome → Bool
  | .ok => true
  | .httpFail => false
  | .threw => false

/-- Inputs of one `gate_email` execution.  `fetch` is the outcome of the
external `imap.getMessage` call (an oracle); `sink` the audit-sink outcome
(consulted only when a comms token is configured); `read_body` collapses the
optional boolean parameter by its truthiness. -/
structure GateInput where
  uid : Nat
  mailbox : Option String
  read_body : Bool
  fetch : Except String EmailFull
  sink : SinkOutcome

/-- JSON-ish values appearing in the gate_email response object. -/
inductive JVal where
  | s : String → JVal
  | n : Nat → JVal
  | b : Bool → JVal
deriving DecidableEq

/-- The `responseData` object of src/server.ts lines 233-252, as an
association list in construction order: the five caller-safe fields, then —
only when `read_body` — the sanitized, wrapped body text and html. -/
def responseData (email : EmailFull) (logged : Bool) (read_body : Bool) :
    List (String × JVal) :=
  [("uid", JVal.n email.uid),
   ("from", JVal.s email.«from»),
   ("date", JVal.s email.date),
   ("logged", JVal.b logged),
   ("email_log_channel", JVal.s "email-log")] ++
  (if read_body then
    (match email.text with
     | some t => [("text", JVal.s (wrapUntrusted t))]
     | none => []) ++
    (match email.html with
     | some h => [("html", JVal.s (wrapUntrusted h))]
     | none => [])
   else [])

/-- Events of one `gate_email` execution, in execution order: the IMAP fetch,
the audit step (its `logged` outcome: a 2xx delivery, a failed/skipped
delivery per the best-effort policy), and the return of the response to the
caller. -/
inductive GEvent where
  | fetchMsg : GEvent
  | audit : Bool → GEvent
  | ret : GEvent
deriving DecidableEq

/-- The `gate_email` tool handler (src/server.ts lines 180-264), as a pure
function from its inputs to the event trace and the response.  Any exception
from `getImapConfig` or the fetch is caught by the outer try/catch and
returned as an error payload (`.error`); the audit step runs between the
fetch and the construction of `responseData`, with `logged := false` when the
comms token is missing/empty (JS truthiness of `getEnv("COMMS_TOKEN")`), the
sink responds non-2xx, or the sink call throws (inner try/catch). -/
def gateEmail (file : AgentsFile) (penv : ProcEnv) (ctx : Option String)
    (inp : GateInput) : List GEvent × Except String (List (String × JVal)) :=
  match getImapConfig file penv ctx with
  | .error e => ([], .error e)
  | .ok _ =>
    match inp.fetch with
    | .error e => ([GEvent.fetchMsg], .error e)
    | .ok email =>
      let commsToken := getEnv file penv ctx "COMMS_TOKEN"
      let tokenTruthy := match commsToken with
        | some t => t != ""
        | none => false
      let logged := tokenTruthy && inp.sink.delivered
      ([GEvent.fetchMsg, GEvent.audit logged, GEvent.ret],
       .ok (responseData email logged inp.read_body))

/-- A pattern matching a prefix still matches after extending the text. -/
lemma ciMatch_append_of {q a : List Char} (t : List Char)
    (h : ciMatch q a = true) : ciMatch q (a ++ t) = true := by
  induction q generalizing a with
  | nil => simp [ciMatch]
  | cons x xs ih =>
    cases a with
    | nil => simp [ciMatch] at h
    | cons b bs =>
      simp only [ciMatch, List.cons_append, Bool.and_eq_true, beq_iff_eq] at h ⊢
      exact ⟨h.1, ih h.2⟩

/-- A pattern matching a prefix of `a ++ t` is compatible with `a`. -/
lemma ciCompat_of_ciMatch_append {q a t : List Char}
    (h : ciMatch q (a ++ t) = true) : ciCompat q a = true := by
  induction q generalizing a t with
  | nil => simp [ciCompat]
  | cons x xs ih =>
    cases a with
    | nil => simp [ciCompat]
    | cons b bs =>
      simp only [ciMatch, List.cons_append, Bool.and_eq_true, beq_iff_eq] at h
      simp only [ciCompat, Bool.and_eq_true, beq_iff_eq]
      exact ⟨h.1, ih h.2⟩

/-- A pattern matching a prefix of `a` is compatible with `a`. -/
lemma ciCompat_of_ciMatch {q a : List Char}
    (h : ciMatch q a = true) : ciCompat q a = true := by
  rw [← List.append_nil a] at h
  exact ciCompat_of_ciMatch_append h

/-- The skip counter of `stripGo` just drops that many characters. -/
lemma stripGo_skip (pats : List StripPat) (rep : List Char) :
    ∀ (k : Nat) (cs : List Char), stripGo pats rep k cs = stripGo pats rep 0 (cs.drop k) := by
  intro k
  induction k with
  | zero => intro cs; rfl
  | succ n ih =>
    intro cs
    cases cs with
    | nil => simp [stripGo]
    | cons c cs' => simpa [stripGo] using ih cs'

/-- Unfolding equation of `stripPass` on the empty list. -/
lemma stripPass_nil (pats : List StripPat) (rep : List Char) :
    stripPass pats rep [] = [] := rfl

/-- Unfolding equation of `stripPass` when a pattern matches at the head. -/
lemma stripPass_cons_match {pats : List StripPat} {rep : List Char} {c : Char}
    {cs : List Char} {p : StripPat} (h : findPat pats c cs = some p) :
    stripPass pats rep (c :: cs) = rep ++ stripPass pats rep (cs.drop p.2.length) := by
  have h0 : stripGo pats rep 0 (c :: cs) = rep ++ stripGo pats rep p.2.length cs := by
    simp only [stripGo, h]
  unfold stripPass
  rw [h0, stripGo_skip]

/-- Unfolding equation of `stripPass` when no pattern matches at the head. -/
lemma stripPass_cons_none {pats : List StripPat} {rep : List Char} {c : Char}
    {cs : List Char} (h : findPat pats c cs = none) :
    stripPass pats rep (c :: cs) = c :: stripPass pats rep cs := by
  unfold stripPass
  simp only [stripGo, h]

/-- When `findPat` fails, every pattern of the list fails to match there. -/
lemma findPat_none {pats : List StripPat} {c : Char} {cs : List Char}
    (h : findPat pats c cs = none) :
    ∀ p ∈ pats, ciMatch (p.1 :: p.2) (c :: cs) = false := by
  intro p hp
  unfold findPat at h
  have hnp := List.find?_eq_none.mp h p hp
  simp only [ciMatch]
  simpa using hnp

/-- Head preservation: a nonempty pattern, none of whose tails can begin
matching at the replacement, that does not match at the head of `l`, does
not match at the head of the stripped `l` either. -/
lemma ciMatch_stripPass_of_ne (pats : List StripPat) (rep : List Char) :
    ∀ (n : Nat) (l q : List Char), l.length ≤ n → q ≠ [] →
      sufNoCompat rep q = true → ciMatch q l = false →
      ciMatch q (stripPass pats rep l) = false := by
  intro n
  induction n with
  | zero =>
    intro l q hl hq _ _
    have hnil : l = [] := by cases l with
      | nil => rfl
      | cons a as => simp at hl
    subst hnil
    rw [stripPass_nil]
    cases q with
    | nil => exact absurd rfl hq
    | cons x xs => simp [ciMatch]
  | succ n ih =>
    intro l q hl hq hsuf hm
    cases l with
    | nil =>
      rw [stripPass_nil]
      cases q with
      | nil => exact absurd rfl hq
      | cons x xs => simp [ciMatch]
    | cons c cs =>
      cases hf : findPat pats c cs with
      | some p =>
        rw [stripPass_cons_match hf]
        cases q with
        | nil => exact absurd rfl hq
        | cons x xs =>
          by_contra hcon
          have htrue : ciMatch (x :: xs)
              (rep ++ stripPass pats rep (cs.drop p.2.length)) = true := by
            simpa using hcon
          have hcompat := ciCompat_of_ciMatch_append htrue
          simp only [sufNoCompat, Bool.and_eq_true, Bool.not_eq_true'] at hsuf
          rw [hsuf.1] at hcompat
          exact Bool.false_ne_true hcompat
      | none =>
        rw [stripPass_cons_none hf]
        cases q with
        | nil => exact absurd rfl hq
        | cons x xs =>
          simp only [ciMatch]
          cases hx : (x == c.toLower) with
          | false => simp
          | true =>
            simp only [Bool.true_and]
            simp only [ciMatch, hx, Bool.true_and] at hm
            cases xs with
            | nil => simp [ciMatch] at hm
            | cons y ys =>
              have hlen : cs.length ≤ n := by
                simp only [List.length_cons] at hl; omega
              have hsuf' : sufNoCompat rep (y :: ys) = true := by
                simp only [sufNoCompat, Bool.and_eq_true] at hsuf ⊢
                exact hsuf.2
              exact ih cs (y :: ys) hlen (by simp) hsuf' hm

/-- Absence of occurrences is inherited by suffixes. -/
lemma occursCI_drop {q : List Char} :
    ∀ (k : Nat) (l : List Char), occursCI q l = false → occursCI q (l.drop k) = false := by
  intro k
  induction k with
  | zero => intro l h; simpa using h
  | succ n ih =>
    intro l h
    cases l with
    | nil => simpa using h
    | cons c cs =>
      simp only [occursCI, Bool.or_eq_false_iff] at h
      simpa using ih cs h.2

/-- Prepending a block inside which no occurrence of `q` can start preserves
absence of occurrences. -/
lemma occursCI_append {q : List Char} :
    ∀ (a t : List Char), noCompatIn q a = true → occursCI q t = false →
      occursCI q (a ++ t) = false := by
  intro a
  induction a with
  | nil => intro t _ h; simpa using h
  | cons c cs ih =>
    intro t hnc ht
    simp only [noCompatIn, Bool.and_eq_true, Bool.not_eq_true'] at hnc
    simp only [List.cons_append, occursCI, Bool.or_eq_false_iff]
    constructor
    · by_contra hcon
      have htrue : ciMatch q ((c :: cs) ++ t) = true := by
        simpa using hcon
      have := ciCompat_of_ciMatch_append htrue
      rw [hnc.1] at this
      exact Bool.false_ne_true this
    · exact ih t hnc.2 ht

/-- Main removal lemma: after a `stripPass`, no pattern of the pass occurs
anywhere in the output, provided no occurrence of the pattern can start
inside the replacement text and no tail of the pattern can begin matching at
the replacement. -/
lemma occursCI_stripPass_pat (pats : List StripPat) (rep : List Char) :
    ∀ (n : Nat) (l : List Char) (p : StripPat), l.length ≤ n → p ∈ pats →
      noCompatIn (p.1 :: p.2) rep = true →
      sufNoCompat rep (p.1 :: p.2) = true →
      occursCI (p.1 :: p.2) (stripPass pats rep l) = false := by
  intro n
  induction n with
  | zero =>
    intro l p hl _ _ _
    have hnil : l = [] := by cases l with
      | nil => rfl
      | cons a as => simp at hl
    subst hnil
    rw [stripPass_nil]
    simp [occursCI]
  | succ n ih =>
    intro l p hl hp hnc hsuf
    cases l with
    | nil =>
      rw [stripPass_nil]
      simp [occursCI]
    | cons c cs =>
      cases hf : findPat pats c cs with
      | some p' =>
        rw [stripPass_cons_match hf]
        apply occursCI_append _ _ hnc
        apply ih _ p _ hp hnc hsuf
        have := List.length_drop p'.2.length cs
        simp only [List.length_cons] at hl
        omega
      | none =>
        rw [stripPass_cons_none hf]
        simp only [occursCI, Bool.or_eq_false_iff]
        have hlen : cs.length ≤ n := by
          simp only [List.length_cons] at hl; omega
        constructor
        · have hm := findPat_none hf p hp
          have hres := ciMatch_stripPass_of_ne pats rep (n + 1) (c :: cs)
            (p.1 :: p.2) hl (by simp) hsuf hm
          rw [stripPass_cons_none hf] at hres
          exact hres
        · exact ih cs p hlen hp hnc hsuf

/-- Preservation lemma: a later `stripPass` (with other patterns) cannot
introduce an occurrence of a pattern `q` that was absent, provided `q`
cannot start inside the replacement and no tail of `q` can begin matching at
the replacement. -/
lemma occursCI_stripPass_pres (pats : List StripPat) (rep : List Char) :
    ∀ (n : Nat) (l q : List Char), l.length ≤ n → q ≠ [] →
      noCompatIn q rep = true → sufNoCompat rep q = true →
      occursCI q l = false →
      occursCI q (stripPass pats rep l) = false := by
  intro n
  induction n with
  | zero =>
    intro l q hl _ _ _ _
    have hnil : l = [] := by cases l with
      | nil => rfl
      | cons a as => simp at hl
    subst hnil
    rw [stripPass_nil]
    simp [occursCI]
  | succ n ih =>
    intro l q hl hq hnc hsuf hocc
    cases l with
    | nil =>
      rw [stripPass_nil]
      simp [occursCI]
    | cons c cs =>
      simp only [occursCI, Bool.or_eq_false_iff] at hocc
      have hlen : cs.length ≤ n := by
        simp only [List.length_cons] at hl; omega
      cases hf : findPat pats c cs with
      | some p' =>
        rw [stripPass_cons_match hf]
        apply occursCI_append _ _ hnc
        apply ih _ q _ hq hnc hsuf (occursCI_drop _ _ hocc.2)
        have := List.length_drop p'.2.length cs
        omega
      | none =>
        rw [stripPass_cons_none hf]
        simp only [occursCI, Bool.or_eq_false_iff]
        constructor
        · have hres := ciMatch_stripPass_of_ne pats rep (n + 1) (c :: cs)
            q hl hq hsuf hocc.1
          rw [stripPass_cons_none hf] at hres
          exact hres
        · exact ih cs q hlen hq hnc hsuf hocc.2

/-- Counting: a region inside which no occurrence of `q` can start
contributes nothing to the count. -/
lemma countOcc_append_noCompatIn {q : List Char} :
    ∀ (a t : List Char), noCompatIn q a = true →
      countOcc q (a ++ t) = countOcc q t := by
  intro a
  induction a with
  | nil => intro t _; simp
  | cons c cs ih =>
    intro t hnc
    simp only [noCompatIn, Bool.and_eq_true, Bool.not_eq_true'] at hnc
    simp only [List.cons_append, countOcc]
    have hm : ciMatch q ((c :: cs) ++ t) = false := by
      by_contra hcon
      have htrue : ciMatch q ((c :: cs) ++ t) = true := by simpa using hcon
      have := ciCompat_of_ciMatch_append htrue
      rw [hnc.1] at this
      exact Bool.false_ne_true this
    rw [List.cons_append] at hm
    simp only [List.append_eq, hm, Bool.false_eq_true, if_false, Nat.zero_add]
    exact ih t hnc.2

/-- Splitting: when no tail of `q` can begin matching at `b`, a match of `q`
at the junction `s ++ b` must already lie inside `s`. -/
lemma ciMatch_of_append_sufNoCompat {b : List Char} :
    ∀ (s q : List Char), sufNoCompat b q = true →
      ciMatch q (s ++ b) = true → ciMatch q s = true := by
  intro s
  induction s with
  | nil =>
    intro q hsuf hm
    cases q with
    | nil => simp [ciMatch]
    | cons x xs =>
      simp only [List.nil_append] at hm
      have := ciCompat_of_ciMatch hm
      simp only [sufNoCompat, Bool.and_eq_true, Bool.not_eq_true'] at hsuf
      rw [hsuf.1] at this
      exact absurd this Bool.false_ne_true
  | cons c cs ih =>
    intro q hsuf hm
    cases q with
    | nil => simp [ciMatch]
    | cons x xs =>
      simp only [List.cons_append, ciMatch, Bool.and_eq_true] at hm ⊢
      refine ⟨hm.1, ih xs ?_ hm.2⟩
      simp only [sufNoCompat, Bool.and_eq_true] at hsuf
      exact hsuf.2

/-- Counting: a region with no occurrences of `q`, followed by a block `b`
no tail of `q` can begin matching at, contributes nothing to the count. -/
lemma countOcc_append_noOccurs {q b : List Char} :
    ∀ (m : List Char), occursCI q m = false → sufNoCompat b q = true →
      countOcc q (m ++ b) = countOcc q b := by
  intro m
  induction m with
  | nil => intro _ _; simp
  | cons c cs ih =>
    intro hocc hsuf
    simp only [occursCI, Bool.or_eq_false_iff] at hocc
    simp only [List.cons_append, countOcc]
    have hm : ciMatch q ((c :: cs) ++ b) = false := by
      by_contra hcon
      have htrue : ciMatch q ((c :: cs) ++ b) = true := by simpa using hcon
      have := ciMatch_of_append_sufNoCompat (c :: cs) q hsuf htrue
      rw [hocc.1] at this
      exact Bool.false_ne_true this
    rw [List.cons_append] at hm
    simp only [List.append_eq, hm, Bool.false_eq_true, if_false, Nat.zero_add]
    exact ih hocc.2 hsuf

/-- One-step unfolding of `countOcc` on a cons cell. -/
lemma countOcc_cons (q : List Char) (c : Char) (t : List Char) :
    countOcc q (c :: t) = (if ciMatch q (c :: t) = true then 1 else 0) + countOcc q t := rfl

/-- The sanitized inner text contains no occurrence, case-insensitively, of
any of the four markers the code strips: `</untrusted>`, `<untrusted>`,
`[/untrusted]`, or the brace-closing variant. -/
lemma stripUntrustedL_noOccurs (l : List Char) :
    occursCI closePat (stripUntrustedL l) = false ∧
    occursCI openPat (stripUntrustedL l) = false ∧
    occursCI brPat (stripUntrustedL l) = false ∧
    occursCI bracePat (stripUntrustedL l) = false := by
  have e1 : ('<' : Char) :: "/untrusted>".data = closePat := by decide
  have e2 : ('<' : Char) :: "untrusted>".data = openPat := by decide
  have e3 : ('[' : Char) :: "/untrusted]".data = brPat := by decide
  have e4 : Char.ofNat 123 :: ("/untrusted" ++ String.singleton (Char.ofNat 125)).data
      = bracePat := by decide
  have hclose1 : occursCI closePat (stripPass anglePats tagStripped l) = false := by
    have h := occursCI_stripPass_pat anglePats tagStripped l.length l
      ('<', "/untrusted>".data) le_rfl (by decide) (by decide) (by decide)
    rw [← e1]
    exact h
  have hopen1 : occursCI openPat (stripPass anglePats tagStripped l) = false := by
    have h := occursCI_stripPass_pat anglePats tagStripped l.length l
      ('<', "untrusted>".data) le_rfl (by decide) (by decide) (by decide)
    rw [← e2]
    exact h
  have hclose2 : occursCI closePat
      (stripPass bracketPats tagStripped (stripPass anglePats tagStripped l)) = false :=
    occursCI_stripPass_pres bracketPats tagStripped _ _ closePat le_rfl
      (by decide) (by decide) (by decide) hclose1
  have hopen2 : occursCI openPat
      (stripPass bracketPats tagStripped (stripPass anglePats tagStripped l)) = false :=
    occursCI_stripPass_pres bracketPats tagStripped _ _ openPat le_rfl
      (by decide) (by decide) (by decide) hopen1
  have hbr2 : occursCI brPat
      (stripPass bracketPats tagStripped (stripPass anglePats tagStripped l)) = false := by
    have h := occursCI_stripPass_pat bracketPats tagStripped
      (stripPass anglePats tagStripped l).length (stripPass anglePats tagStripped l)
      ('[', "/untrusted]".data) le_rfl (by decide) (by decide) (by decide)
    rw [← e3]
    exact h
  refine ⟨?_, ?_, ?_, ?_⟩
  · exact occursCI_stripPass_pres bracePats tagStripped _ _ closePat le_rfl
      (by decide) (by decide) (by decide) hclose2
  · exact occursCI_stripPass_pres bracePats tagStripped _ _ openPat le_rfl
      (by decide) (by decide) (by decide) hopen2
  · exact occursCI_stripPass_pres bracePats tagStripped _ _ brPat le_rfl
      (by decide) (by decide) (by decide) hbr2
  · have h := occursCI_stripPass_pat bracePats tagStripped
      (stripPass bracketPats tagStripped (stripPass anglePats tagStripped l)).length
      (stripPass bracketPats tagStripped (stripPass anglePats tagStripped l))
      (Char.ofNat 123, ("/untrusted" ++ String.singleton (Char.ofNat 125)).data)
      le_rfl (by decide) (by decide) (by decide)
    rw [← e4]
    exact h

/-- The wrapped body contains exactly one opening and exactly one closing
untrusted marker (counted case-insensitively). -/
lemma wrapUntrusted_counts (s : String) :
    countOcc openPat (wrapUntrusted s).data = 1 ∧
    countOcc closePat (wrapUntrusted s).data = 1 := by
  have hdata : (wrapUntrusted s).data =
      "<untrusted>\n".data ++ (stripUntrustedL s.data ++ "\n</untrusted>".data) := by
    show (("<untrusted>\n" ++ stripUntrusted s ++ "\n</untrusted>") : String).data = _
    have : (("<untrusted>\n" ++ stripUntrusted s ++ "\n</untrusted>") : String).data =
        ("<untrusted>\n".data ++ stripUntrustedL s.data) ++ "\n</untrusted>".data := rfl
    rw [this, List.append_assoc]
  have hnoocc := stripUntrustedL_noOccurs s.data
  constructor
  · have hsplit : "<untrusted>\n".data ++ (stripUntrustedL s.data ++ "\n</untrusted>".data) =
        '<' :: ("untrusted>\n".data ++ (stripUntrustedL s.data ++ "\n</untrusted>".data)) := rfl
    have hA : ciMatch openPat
        ('<' :: ("untrusted>\n".data ++ (stripUntrustedL s.data ++ "\n</untrusted>".data))) = true := by
      rw [← hsplit]
      exact ciMatch_append_of _ (by decide)
    have htail : countOcc openPat
        ("untrusted>\n".data ++ (stripUntrustedL s.data ++ "\n</untrusted>".data)) =
        countOcc openPat (stripUntrustedL s.data ++ "\n</untrusted>".data) :=
      countOcc_append_noCompatIn _ _ (by decide)
    have hmid : countOcc openPat (stripUntrustedL s.data ++ "\n</untrusted>".data) =
        countOcc openPat "\n</untrusted>".data :=
      countOcc_append_noOccurs _ hnoocc.2.1 (by decide)
    rw [hdata, hsplit, countOcc_cons, if_pos hA, htail, hmid]
    decide
  · have htail : countOcc closePat
        ("<untrusted>\n".data ++ (stripUntrustedL s.data ++ "\n</untrusted>".data)) =
        countOcc closePat (stripUntrustedL s.data ++ "\n</untrusted>".data) :=
      countOcc_append_noCompatIn _ _ (by decide)
    have hmid : countOcc closePat (stripUntrustedL s.data ++ "\n</untrusted>".data) =
        countOcc closePat "\n</untrusted>".data :=
      countOcc_append_noOccurs _ hnoocc.1 (by decide)
    rw [hdata, htail, hmid]
    decide

/-- Filtering out the "apiKey" entries does not change lookups of other
keys. -/
lemma lookup_filter_ne (l : List (String × String)) (key : String)
    (h : key ≠ "apiKey") :
    (l.filter (fun e => !(e.1 == "apiKey"))).lookup key = l.lookup key := by
  induction l with
  | nil => rfl
  | cons e rest ih =>
    obtain ⟨k, v⟩ := e
    by_cases he : k = "apiKey"
    · subst he
      have hk : (key == "apiKey") = false := by simp [h]
      simp [List.filter_cons, List.lookup, hk, ih]
    · have h1 : (k == "apiKey") = false := by simp [he]
      simp only [List.filter_cons, h1, Bool.not_false, if_true]
      simp [List.lookup, ih]

/-- After filtering out the "apiKey" entries, looking up "apiKey" fails. -/
lemma lookup_filter_self (l : List (String × String)) :
    (l.filter (fun e => !(e.1 == "apiKey"))).lookup "apiKey" = none := by
  induction l with
  | nil => rfl
  | cons e rest ih =>
    obtain ⟨k, v⟩ := e
    by_cases he : k = "apiKey"
    · simp [List.filter_cons, he, ih]
    · have h1 : (k == "apiKey") = false := by simp [he]
      have h2 : ("apiKey" == k) = false := by
        simp [Ne.symm he]
      simp only [List.filter_cons, h1, Bool.not_false, if_true]
      simp [List.lookup, h2, ih]

/-- The shared-block lookup of the source equals the spec's shared-defaults
tier. -/
lemma sharedEnv_eq_specShared (file : AgentsFile) (key : String) :
    sharedEnv file key = specShared file key := rfl

/-- The source's `getAgentEnv` is exactly the spec's first two tiers:
override (the agent block minus "apiKey"), else shared default. -/
lemma getAgentEnv_eq_spec (file : AgentsFile) (a key : String) :
    getAgentEnv file a key =
      match specOverride file a key with
      | some v => some v
      | none => specShared file key := by
  unfold getAgentEnv specOverride
  cases hl : file.agents.lookup a with
  | none => rfl
  | some entries =>
    dsimp only
    by_cases hk : key = "apiKey"
    · subst hk
      rw [lookup_filter_self]
      simp [sharedEnv_eq_specShared]
    · rw [lookup_filter_ne entries key hk]
      cases he : entries.lookup key with
      | some v => simp [he, hk]
      | none => simp [he, sharedEnv_eq_specShared]

/-- Claim C1 (counterexample): a credential file whose shared block defines
an "apiKey" entry makes the override-lookup path return that shared value —
`getAgentEnv(agentId, "apiKey")` is not absent for every file contents. -/
def exFileShared : AgentsFile :=
  ⟨[("a", [("apiKey", "agent-secret")])], some [("apiKey", "shared-secret")]⟩

/-- Claim C1 is false as stated: on `exFileShared`, the override lookup of
"apiKey" returns the shared block's value instead of absent. -/
theorem getAgentEnv_apiKey_not_always_absent :
    getAgentEnv exFileShared "a" "apiKey" = some "shared-secret" := by
  decide

/-- Claim C1 (amended): the override-lookup path never returns the agent's
own `apiKey` entry — `getAgentEnv(agentId, "apiKey")` equals exactly the
shared-block lookup of "apiKey", ignoring the agent block entirely; it is
absent unless the shared block itself defines an "apiKey" entry. -/
theorem getAgentEnv_apiKey_amended (file : AgentsFile) (agentId : String) :
    getAgentEnv file agentId "apiKey" = sharedEnv file "apiKey" := by
  unfold getAgentEnv
  cases file.agents.lookup agentId with
  | none => rfl
  | some agent => simp

/-- Claim C6: the source's `getEnv` implements exactly the spec's four-tier
resolution — the bound agent's override (its block minus the structural
"apiKey" field) if set, else the shared default if set, else the process
environment with an empty string treated as absent, else absent; with no
bound identity, only the process environment is consulted. -/
theorem getEnv_matches_spec (file : AgentsFile) (penv : ProcEnv)
    (ctx : Option String) (key : String) :
    getEnv file penv ctx key = specGetEnv file penv ctx key := by
  unfold getEnv specGetEnv
  cases ctx with
  | none => rfl
  | some a =>
    dsimp only
    rw [getAgentEnv_eq_spec]
    cases specOverride file a key with
    | some v => rfl
    | none =>
      cases specShared file key with
      | some v => rfl
      | none => rfl

/-- Claim C2 is false as stated: the opening bracket variant `[untrusted]`
is an untrusted-boundary marker form (the claim includes "bracket and brace
variants" among "opening and closing tag forms"), yet the sanitizer leaves
it untouched, so the returned wrapped body still contains it verbatim. -/
theorem gate_email_strip_misses_open_bracket :
    stripUntrusted "[untrusted]" = "[untrusted]" ∧
    occursCI brOpenPat (wrapUntrusted "[untrusted]").data = true := by
  constructor
  · decide
  · decide

/-- Claim C2 (amended): for every fetched body string, the gate returns the
body with every substring matching `<untrusted>` or `</untrusted>` (any
case) or the closing bracket/brace variants replaced by the fixed
placeholder, wrapped in exactly one fresh pair of untrusted markers — never
two and never zero; the opening bracket/brace variants are not stripped.
Formally: the response's body field is `wrapUntrusted` of the fetched text,
the sanitized inner text has no remaining occurrence of any of the four
stripped markers, and the wrapped result contains exactly one opening and
one closing marker. -/
theorem gate_email_sanitizes_body (email : EmailFull) (logged : Bool) (t : String) :
    (email.text = some t →
      ("text", JVal.s (wrapUntrusted t)) ∈ responseData email logged true) ∧
    (email.html = some t →
      ("html", JVal.s (wrapUntrusted t)) ∈ responseData email logged true) ∧
    occursCI closePat (stripUntrusted t).data = false ∧
    occursCI openPat (stripUntrusted t).data = false ∧
    occursCI brPat (stripUntrusted t).data = false ∧
    occursCI bracePat (stripUntrusted t).data = false ∧
    countOcc openPat (wrapUntrusted t).data = 1 ∧
    countOcc closePat (wrapUntrusted t).data = 1 := by
  have hno := stripUntrustedL_noOccurs t.data
  have hc := wrapUntrusted_counts t
  have hdata : (stripUntrusted t).data = stripUntrustedL t.data := rfl
  refine ⟨?_, ?_, ?_, ?_, ?_, ?_, hc.1, hc.2⟩
  · intro h
    cases hh : email.html <;> simp [responseData, h, hh]
  · intro h
    cases ht : email.text <;> simp [responseData, h, ht]
  · rw [hdata]; exact hno.1
  · rw [hdata]; exact hno.2.1
  · rw [hdata]; exact hno.2.2.1
  · rw [hdata]; exact hno.2.2.2

/-- A concrete fetched message whose body contains a literal closing
untrusted marker, used as witness input. -/
def emailEx : EmailFull :=
  { uid := 7, «from» := "alice@example.com", «to» := "bob@example.com",
    cc := none, subject := "hello", date := "2026-01-01T00:00:00.000Z",
    flags := [], messageId := some "<id-1@example.com>",
    text := some "a</untrusted>b", html := some "a</untrusted>b",
    attachments := [] }

/-- Witness for the amended claim C2 at a concrete message whose body
contains the literal closing marker. -/
theorem gate_email_sanitizes_body_witness :
    ("text", JVal.s (wrapUntrusted "a</untrusted>b")) ∈ responseData emailEx true true ∧
    ("html", JVal.s (wrapUntrusted "a</untrusted>b")) ∈ responseData emailEx true true ∧
    countOcc openPat (wrapUntrusted "a</untrusted>b").data = 1 ∧
    countOcc closePat (wrapUntrusted "a</untrusted>b").data = 1 := by
  have h := gate_email_sanitizes_body emailEx true "a</untrusted>b"
  exact ⟨h.1 rfl, h.2.1 rfl, h.2.2.2.2.2.2.1, h.2.2.2.2.2.2.2⟩

/-- Caller-safe shape of the gate response object: no subject, no
message-id, always the `logged` flag and the audit channel name. -/
lemma responseData_shape (email : EmailFull) (logged read_body : Bool) :
    (∀ v, ("subject", v) ∉ responseData email logged read_body) ∧
    (∀ v, ("messageId", v) ∉ responseData email logged read_body) ∧
    ("logged", JVal.b logged) ∈ responseData email logged read_body ∧
    ("email_log_channel", JVal.s "email-log") ∈ responseData email logged read_body := by
  cases read_body <;>
    cases ht : email.text <;>
      cases hh : email.html <;>
        simp [responseData, ht, hh]

/-- Claim C3: whenever a `gate_email` execution returns body content to the
caller, its event trace is exactly fetch, then the audit step, then the
return — the audit attempt (whatever its `logged` outcome, including the
skipped-delivery case the best-effort policy prescribes for a missing
credential) has completed before the body is returned; no execution
surfaces body content without the audit step having run first. -/
theorem gate_email_audit_before_body (file : AgentsFile) (penv : ProcEnv)
    (ctx : Option String) (inp : GateInput) (r : List (String × JVal))
    (hok : (gateEmail file penv ctx inp).2 = .ok r)
    (_hbody : (∃ v, ("text", v) ∈ r) ∨ (∃ v, ("html", v) ∈ r)) :
    ∃ b, (gateEmail file penv ctx inp).1 =
      [GEvent.fetchMsg, GEvent.audit b, GEvent.ret] := by
  cases hi : getImapConfig file penv ctx with
  | error e => simp [gateEmail, hi] at hok
  | ok cfg =>
    cases hf : inp.fetch with
    | error e => simp [gateEmail, hi, hf] at hok
    | ok email =>
      refine ⟨(match getEnv file penv ctx "COMMS_TOKEN" with
        | some t => t != ""
        | none => false) && inp.sink.delivered, ?_⟩
      simp [gateEmail, hi, hf]

/-- Claim C7: any metadata object a `gate_email` execution returns consists
only of caller-safe fields — it never contains the fetched message's
subject or message-id, and it always contains the `logged` flag and the
audit channel name. -/
theorem gate_email_metadata_safe (file : AgentsFile) (penv : ProcEnv)
    (ctx : Option String) (inp : GateInput) (r : List (String × JVal))
    (hok : (gateEmail file penv ctx inp).2 = .ok r) :
    (∀ v, ("subject", v) ∉ r) ∧
    (∀ v, ("messageId", v) ∉ r) ∧
    (∃ b, ("logged", JVal.b b) ∈ r) ∧
    ("email_log_channel", JVal.s "email-log") ∈ r := by
  cases hi : getImapConfig file penv ctx with
  | error e => simp [gateEmail, hi] at hok
  | ok cfg =>
    cases hf : inp.fetch with
    | error e => simp [gateEmail, hi, hf] at hok
    | ok email =>
      simp only [gateEmail, hi, hf] at hok
      injection hok with hok
      subst hok
      have h := responseData_shape email
        ((match getEnv file penv ctx "COMMS_TOKEN" with
          | some t => t != ""
          | none => false) && inp.sink.delivered) inp.read_body
      exact ⟨h.1, h.2.1, ⟨_, h.2.2.1⟩, h.2.2.2⟩

/-- Claim C8: when the fetch succeeds but audit delivery cannot succeed —
the comms token is missing or empty, the sink answers non-2xx, or the sink
call throws — `gate_email` still completes and returns its response with
`logged = false`; the sink failure is never propagated as a failure of the
read. -/
theorem gate_email_sink_failure_nonfatal (file : AgentsFile) (penv : ProcEnv)
    (ctx : Option String) (inp : GateInput) (cfg : ImapConfig) (email : EmailFull)
    (hcfg : getImapConfig file penv ctx = .ok cfg)
    (hf : inp.fetch = .ok email)
    (hfail : getEnv file penv ctx "COMMS_TOKEN" = none ∨
             getEnv file penv ctx "COMMS_TOKEN" = some "" ∨
             inp.sink ≠ SinkOutcome.ok) :
    (gateEmail file penv ctx inp).2 = .ok (responseData email false inp.read_body) ∧
    ("logged", JVal.b false) ∈ responseData email false inp.read_body := by
  have hlog : ((match getEnv file penv ctx "COMMS_TOKEN" with
      | some t => t != ""
      | none => false) && inp.sink.delivered) = false := by
    rcases hfail with h | h | h
    · simp [h]
    · simp [h]
    · have : inp.sink.delivered = false := by
        cases hs : inp.sink with
        | ok => exact absurd hs h
        | httpFail => rfl
        | threw => rfl
      simp [this]
  constructor
  · simp only [gateEmail, hcfg, hf]
    rw [hlog]
  · have h := responseData_shape email false inp.read_body
    exact h.2.2.1

/-- The empty agents file: no agents.json present. -/
def emptyFile : AgentsFile := ⟨[], none⟩

/-- A process environment with IMAP credentials and a comms token, used as
witness input for the gate theorems. -/
def imapEnvEx : ProcEnv :=
  [("IMAP_HOST", "imap.example.com"), ("IMAP_USER", "u"), ("IMAP_PASS", "p"),
   ("COMMS_TOKEN", "tok")]

/-- A gate_email input with a successful fetch and a successful sink. -/
def gateInpEx : GateInput :=
  ⟨7, none, true, .ok emailEx, .ok⟩

/-- A gate_email input with a successful fetch but a sink answering
non-2xx. -/
def gateInpFail : GateInput :=
  ⟨7, none, true, .ok emailEx, .httpFail⟩

/-- Witness for claim C3 at a concrete execution that returns body
content. -/
theorem gate_email_audit_before_body_witness :
    ∃ b, (gateEmail emptyFile imapEnvEx none gateInpEx).1 =
      [GEvent.fetchMsg, GEvent.audit b, GEvent.ret] :=
  gate_email_audit_before_body emptyFile imapEnvEx none gateInpEx
    (responseData emailEx true true) rfl
    (Or.inl ⟨JVal.s (wrapUntrusted "a</untrusted>b"), by decide⟩)

/-- Witness for claim C7 at a concrete execution. -/
theorem gate_email_metadata_safe_witness :
    (∀ v, ("subject", v) ∉ responseData emailEx true true) ∧
    (∀ v, ("messageId", v) ∉ responseData emailEx true true) ∧
    (∃ b, ("logged", JVal.b b) ∈ responseData emailEx true true) ∧
    ("email_log_channel", JVal.s "email-log") ∈ responseData emailEx true true :=
  gate_email_metadata_safe emptyFile imapEnvEx none gateInpEx
    (responseData emailEx true true) rfl

/-- The IMAP config resolved from `imapEnvEx`. -/
def imapCfgEx : ImapConfig :=
  ⟨"imap.example.com", some 993, "u", "p", true⟩

/-- Witness for claim C8 at a concrete execution whose audit sink answers
HTTP 500: the read still returns its response with `logged = false`. -/
theorem gate_email_sink_failure_nonfatal_witness :
    (gateEmail emptyFile imapEnvEx none gateInpFail).2 =
      .ok (responseData emailEx false true) ∧
    ("logged", JVal.b false) ∈ responseData emailEx false true :=
  gate_email_sink_failure_nonfatal emptyFile imapEnvEx none gateInpFail
    imapCfgEx emailEx rfl rfl (Or.inr (Or.inr (by decide)))

/-- Claim C5: under a successfully loaded server config, `authenticate`
implements exactly the spec's decision procedure (`authSpec`): open mode
when no agents and no static key; otherwise a missing or non-string key
header is rejected; in multi-agent mode the key is resolved via
`resolveAgentByApiKey`, rejected on no match and bound as the identity on
match; otherwise the key is compared against the static key, rejected on
mismatch. -/
theorem authenticate_matches_spec (file : AgentsFile) (penv : ProcEnv)
    (ctx : Option String) (header : HeaderVal) (cfg : ServerConfig)
    (h : getServerConfig file penv ctx = .ok cfg) :
    authenticate file penv ctx header =
      .ok (authSpec (hasAgents file) cfg.apiKey (resolveAgentByApiKey file) header) := by
  unfold authenticate authSpec
  rw [h]
  cases header with
  | absent =>
    by_cases hcase : hasAgents file = false ∧ cfg.apiKey = none
    · simp [hcase]
    · simp [hcase]
  | multi =>
    by_cases hcase : hasAgents file = false ∧ cfg.apiKey = none
    · simp [hcase]
    · simp [hcase]
  | str k =>
    by_cases hcase : hasAgents file = false ∧ cfg.apiKey = none
    · simp [hcase]
    · simp only [if_neg hcase]
      cases hA : hasAgents file with
      | true =>
        simp only [if_pos rfl]
        cases hr : resolveAgentByApiKey file k <;> simp
      | false =>
        simp only [Bool.false_eq_true, if_neg, if_false]
        cases hk : cfg.apiKey with
        | none => simp
        | some s =>
          by_cases he : k = s
          · simp [he]
          · simp [he]

/-- Witness for claim C5 on the zero-config input: no agents, no static
key, no header — allowed with no identity bound. -/
theorem authenticate_matches_spec_witness :
    authenticate emptyFile [] none HeaderVal.absent =
      .ok (authSpec (hasAgents emptyFile)
        (ServerConfig.mk 3000 "127.0.0.1" none).apiKey
        (resolveAgentByApiKey emptyFile) HeaderVal.absent) :=
  authenticate_matches_spec emptyFile [] none HeaderVal.absent
    (ServerConfig.mk 3000 "127.0.0.1" none) rfl

/-- Environment with an out-of-range SMTP port and the required SMTP
fields. -/
def smtpEnvBadPort : ProcEnv :=
  [("SMTP_HOST", "smtp.example.com"), ("SMTP_USER", "u"), ("SMTP_PORT", "70000")]

/-- The email config the code produces from `smtpEnvBadPort`. -/
def emailCfgBadPort : EmailConfig :=
  ⟨"smtp.example.com", some 70000, "u", some "u", none⟩

/-- Claim C4 is false as stated: `getEmailConfig` performs no validation of
SMTP_PORT — with the out-of-range value "70000" it succeeds and returns the
malformed port instead of failing fast.  (`getImapConfig` likewise parses
IMAP_PORT unvalidated.) -/
theorem email_port_not_validated :
    getEmailConfig emptyFile smtpEnvBadPort none = .ok emailCfgBadPort ∧
    emailCfgBadPort.port = some 70000 ∧ (65535 : Int) < 70000 :=
  ⟨rfl, rfl, by decide⟩

/-- Claim C4 (amended): only `getServerConfig` parses MCP_PORT and validates
it as an integer in [1, 65535], failing fast on an invalid value;
`getEmailConfig` and `getImapConfig` parse SMTP_PORT/IMAP_PORT with
`parseInt` and return the result unvalidated (out-of-range and NaN values
included). -/
theorem port_validation_amended (file : AgentsFile) (penv : ProcEnv)
    (ctx : Option String) :
    (∀ cfg, getServerConfig file penv ctx = .ok cfg →
      parseIntJS ((getEnv file penv ctx "MCP_PORT").getD "3000") = some cfg.port ∧
      1 ≤ cfg.port ∧ cfg.port ≤ 65535) ∧
    (∀ v, parseIntJS ((getEnv file penv ctx "MCP_PORT").getD "3000") = some v →
      (v < 1 ∨ 65535 < v) →
      getServerConfig file penv ctx =
        .error ("Invalid MCP_PORT: " ++ (getEnv file penv ctx "MCP_PORT").getD "3000")) ∧
    (parseIntJS ((getEnv file penv ctx "MCP_PORT").getD "3000") = none →
      getServerConfig file penv ctx =
        .error ("Invalid MCP_PORT: " ++ (getEnv file penv ctx "MCP_PORT").getD "3000")) ∧
    (∀ cfg, getEmailConfig file penv ctx = .ok cfg →
      cfg.port = parseIntJS ((getEnv file penv ctx "SMTP_PORT").getD "587")) ∧
    (∀ cfg, getImapConfig file penv ctx = .ok cfg →
      cfg.port = parseIntJS ((getEnv file penv ctx "IMAP_PORT").getD "993")) := by
  refine ⟨?_, ?_, ?_, ?_, ?_⟩
  · intro cfg hcfg
    cases hp : parseIntJS ((getEnv file penv ctx "MCP_PORT").getD "3000") with
    | none => simp [getServerConfig, hp] at hcfg
    | some v =>
      by_cases hr : v < 1 ∨ 65535 < v
      · simp [getServerConfig, hp, hr] at hcfg
      · simp only [getServerConfig, hp, if_neg hr] at hcfg
        injection hcfg with hcfg
        subst hcfg
        push_neg at hr
        exact ⟨rfl, hr.1, hr.2⟩
  · intro v hp hr
    simp [getServerConfig, hp, hr]
  · intro hp
    simp [getServerConfig, hp]
  · intro cfg hcfg
    cases h1 : getRequiredEnv file penv ctx "SMTP_HOST" with
    | error e => simp [getEmailConfig, h1] at hcfg
    | ok host =>
      cases h2 : (match getEnv file penv ctx "SMTP_FROM" with
                  | some f => Except.ok f
                  | none => getRequiredEnv file penv ctx "SMTP_USER") with
      | error e => simp [getEmailConfig, h1, h2] at hcfg
      | ok fromAddr =>
        simp only [getEmailConfig, h1, h2] at hcfg
        injection hcfg with hcfg
        subst hcfg
        rfl
  · intro cfg hcfg
    cases h1 : getRequiredEnv file penv ctx "IMAP_HOST" with
    | error e => simp [getImapConfig, h1] at hcfg
    | ok host =>
      cases h2 : getRequiredEnv file penv ctx "IMAP_USER" with
      | error e => simp [getImapConfig, h1, h2] at hcfg
      | ok user =>
        cases h3 : getRequiredEnv file penv ctx "IMAP_PASS" with
        | error e => simp [getImapConfig, h1, h2, h3] at hcfg
        | ok pass =>
          simp only [getImapConfig, h1, h2, h3] at hcfg
          injection hcfg with hcfg
          subst hcfg
          rfl

/-- Environment with an out-of-range MCP port. -/
def mcpEnvBad : ProcEnv := [("MCP_PORT", "70000")]

/-- Witness for the amended claim C4: `getServerConfig` rejects the
out-of-range MCP_PORT "70000", while `getEmailConfig` passes the same SMTP
port value through unvalidated. -/
theorem port_validation_amended_witness :
    getServerConfig emptyFile mcpEnvBad none = .error "Invalid MCP_PORT: 70000" ∧
    emailCfgBadPort.port = parseIntJS "70000" := by
  constructor
  · exact (port_validation_amended emptyFile mcpEnvBad none).2.1 70000 rfl (by decide)
  · exact (port_validation_amended emptyFile smtpEnvBadPort none).2.2.2.1
      emailCfgBadPort rfl

/-- Claim C10: the resolved IMAP tls flag is false exactly when the resolved
IMAP_TLS value is the literal string "false"; for every other present value
(and the absent case, which defaults to "true") the flag is true. -/
theorem imap_tls_exact_false_match (file : AgentsFile) (penv : ProcEnv)
    (ctx : Option String) (cfg : ImapConfig)
    (h : getImapConfig file penv ctx = .ok cfg) :
    (cfg.tls = false ↔ getEnv file penv ctx "IMAP_TLS" = some "false") := by
  cases h1 : getRequiredEnv file penv ctx "IMAP_HOST" with
  | error e => simp [getImapConfig, h1] at h
  | ok host =>
    cases h2 : getRequiredEnv file penv ctx "IMAP_USER" with
    | error e => simp [getImapConfig, h1, h2] at h
    | ok user =>
      cases h3 : getRequiredEnv file penv ctx "IMAP_PASS" with
      | error e => simp [getImapConfig, h1, h2, h3] at h
      | ok pass =>
        simp only [getImapConfig, h1, h2, h3] at h
        injection h with h
        subst h
        cases he : getEnv file penv ctx "IMAP_TLS" with
        | none => simp [he]
        | some v => simp [he, bne_eq_false_iff_eq]

/-- Environment with IMAP credentials and IMAP_TLS set to "false". -/
def tlsEnvEx : ProcEnv :=
  [("IMAP_HOST", "imap.example.com"), ("IMAP_USER", "u"), ("IMAP_PASS", "p"),
   ("IMAP_TLS", "false")]

/-- The IMAP config resolved from `tlsEnvEx`. -/
def imapCfgTlsEx : ImapConfig :=
  ⟨"imap.example.com", some 993, "u", "p", false⟩

/-- Witness for claim C10 at a concrete environment with IMAP_TLS set to
the literal "false". -/
theorem imap_tls_exact_false_match_witness :
    (imapCfgTlsEx.tls = false ↔
      getEnv emptyFile tlsEnvEx none "IMAP_TLS" = some "false") :=
  imap_tls_exact_false_match emptyFile tlsEnvEx none imapCfgTlsEx rfl

end FagentsMcp
